import Mathlib

/-!
# Tungsten `Bsdf` base class: a shallow embedding of `src/core/bsdfs/Bsdf.hpp`

Scalars (`float` in the source) are elements of an arbitrary linearly ordered
field `K`, so every definition runs on `ℚ` and every theorem can be read over
`ℝ`.  The square root used by `Vec3f::length` is a parameter `sqrt : K → K`.
`std::shared_ptr` handles are `Option`s (`none` is the null handle), and a
member function that dereferences a handle returns `none` when it is null.
-/

namespace Tungsten

/-! ## Collaborator types (declared outside `Bsdf.hpp`) -/

/-- Modelled from the spec: `Vec2f` of `math/Vec.hpp` is not in the source tree; a pair of
scalars, used for the "2D surface coordinate" and for the texture derivative `(du, dv)`. -/
structure Vec2 (K : Type) where
  x : K
  y : K
deriving DecidableEq, Repr

/-- Modelled from the spec: `Vec3f` of `math/Vec.hpp` is not in the source tree; a triple of
scalars ("RGB triple", normal, tangent, bitangent). -/
structure Vec3 (K : Type) where
  x : K
  y : K
  z : K
deriving DecidableEq, Repr

namespace Vec3

variable {K : Type} [LinearOrderedField K]

/-- Modelled from the spec: the broadcasting constructor `Vec3f(a)` of the missing
`math/Vec.hpp` ("constant white" is `Vec3f(1.0f)`, zero emission is `Vec3f(0.0f)`). -/
def splat (a : K) : Vec3 K := ⟨a, a, a⟩

/-- Modelled from the spec: componentwise `a + b` of the missing `math/Vec.hpp`. -/
def add (a b : Vec3 K) : Vec3 K := ⟨a.x + b.x, a.y + b.y, a.z + b.z⟩

/-- Modelled from the spec: componentwise `a - b` of the missing `math/Vec.hpp`. -/
def sub (a b : Vec3 K) : Vec3 K := ⟨a.x - b.x, a.y - b.y, a.z - b.z⟩

/-- Modelled from the spec: unary minus `-a` of the missing `math/Vec.hpp`. -/
def neg (a : Vec3 K) : Vec3 K := ⟨-a.x, -a.y, -a.z⟩

/-- Modelled from the spec: vector times scalar `a*s` of the missing `math/Vec.hpp`. -/
def mulScalar (a : Vec3 K) (s : K) : Vec3 K := ⟨a.x * s, a.y * s, a.z * s⟩

/-- Modelled from the spec: scalar times vector `s*a` of the missing `math/Vec.hpp`. -/
def scalarMul (s : K) (a : Vec3 K) : Vec3 K := ⟨s * a.x, s * a.y, s * a.z⟩

/-- Modelled from the spec: the dot product `a.dot(b)` of the missing `math/Vec.hpp`. -/
def dot (a b : Vec3 K) : K := a.x * b.x + a.y * b.y + a.z * b.z

/-- Modelled from the spec: the cross product `a.cross(b)` ("`T × B`") of the missing
`math/Vec.hpp`. -/
def cross (a b : Vec3 K) : Vec3 K :=
  ⟨a.y * b.z - a.z * b.y, a.z * b.x - a.x * b.z, a.x * b.y - a.y * b.x⟩

/-- Modelled from the spec: the squared Euclidean length of the missing `math/Vec.hpp`. -/
def lengthSq (a : Vec3 K) : K := a.x * a.x + a.y * a.y + a.z * a.z

/-- Modelled from the spec: the Euclidean length `a.length()` of the missing `math/Vec.hpp`,
over the square root `sqrt`. -/
def length (sqrt : K → K) (a : Vec3 K) : K := sqrt (lengthSq a)

/-- Modelled from the spec: `a.normalized()` and the in-place `a.normalize()` of the missing
`math/Vec.hpp` ("normalize"): every component is multiplied by the inverse length.  There is
no guard for a zero length. -/
def normalized (sqrt : K → K) (a : Vec3 K) : Vec3 K := mulScalar a (1 / length sqrt a)

/-- Modelled from the spec: `a.max()` of the missing `math/Vec.hpp`, "the maximum RGB
channel", folded left to right over the components. -/
def max (a : Vec3 K) : K := Max.max (Max.max a.x a.y) a.z

end Vec3

/-- Modelled from the spec: `TangentFrame` of `math/TangentFrame.hpp` is not in the source
tree; "a basis {N, T, B}". -/
structure TangentFrame (K : Type) where
  normal : Vec3 K
  tangent : Vec3 K
  bitangent : Vec3 K
deriving DecidableEq, Repr

/-- Modelled from the spec: the single-vector constructor `TangentFrame(n)` of the missing
`math/TangentFrame.hpp`: "the frame is built from the shading normal alone (single-vector
constructor that derives an arbitrary consistent tangent/bitangent)".  The derivation of the
pair is the parameter `complete`. -/
def TangentFrame.ofNormal {K : Type} (complete : Vec3 K → Vec3 K × Vec3 K) (n : Vec3 K) :
    TangentFrame K :=
  ⟨n, (complete n).1, (complete n).2⟩

/-- Modelled from the spec: the texture contract of the missing `materials/Texture.hpp`:
"`lookup(uv) -> value`, `derivatives(uv) -> (du, dv)`, `isConstant() -> bool`". -/
structure Texture (K V : Type) where
  lookup : Vec2 K → V
  isConstant : Bool
  derivatives : Vec2 K → Vec2 K

/-- The colour textures `TextureRgb`. -/
abbrev TextureRgb (K : Type) := Texture K (Vec3 K)

/-- The scalar textures `TextureA`. -/
abbrev TextureA (K : Type) := Texture K K

/-- Modelled from the spec: `ConstantTextureRgb(v)` / `ConstantTextureA(v)` of the missing
`materials/Texture.hpp`, the "constant textures": every lookup gives `v`, the texture reports
itself spatially constant and its derivative is zero. -/
def ConstantTexture {K V : Type} [Zero K] (v : V) : Texture K V :=
  ⟨fun _ => v, true, fun _ => ⟨0, 0⟩⟩

/-- Modelled from the spec: `BsdfLobes` of the missing `BsdfLobes.hpp`: "a capability bitset
... exposes a derived predicate for anisotropy". -/
structure BsdfLobes where
  lobes : Nat
  isAnisotropic : Bool
deriving DecidableEq, Repr

/-- Modelled from the spec: `IntersectionInfo` of the missing `primitives/Primitive.hpp`:
"UV coordinate, geometric/shading normal". -/
structure IntersectionInfo (K : Type) where
  Ng : Vec3 K
  Ns : Vec3 K
  uv : Vec2 K
deriving DecidableEq, Repr

/-- Modelled from the spec: the primitive's tangent-space query of the missing
`primitives/Primitive.hpp`: "`tangentSpace(intersectionData, info) -> optional (T, B)`";
`none` is the source's `false` return, `some (T, B)` is `true` with both out-parameters
written.  `D` is the type of `Primitive::IntersectionTemporary`. -/
structure Primitive (K D : Type) where
  tangentSpace : D → IntersectionInfo K → Option (Vec3 K × Vec3 K)

/-- Modelled from the spec: `SurfaceScatterEvent` of the missing
`sampling/ScatterEvent.hpp`: "surface intersection info, incoming direction, sampled outgoing
direction, a throughput multiplier, and flags indicating which lobe was sampled". -/
structure SurfaceScatterEvent (K : Type) where
  info : IntersectionInfo K
  wi : Vec3 K
  wo : Vec3 K
  throughput : Vec3 K
  sampledLobe : BsdfLobes
deriving DecidableEq, Repr

/-! ## `class Bsdf` -/

/-- The data members of `Bsdf` (lines 27-34).  A `std::shared_ptr` is an `Option`. -/
structure Bsdf (K : Type) where
  _lobes : BsdfLobes
  _emission : Vec3 K
  _base : Option (TextureRgb K)
  _alpha : Option (TextureA K)
  _bump : Option (TextureA K)
  _bumpStrength : K

namespace Bsdf

variable {K : Type} [LinearOrderedField K]

/-- `Bsdf::Bsdf()` (lines 46-53).  `_lobes` is not in the initialiser list, so it takes the
value `lobes` its own default constructor (or the derived class) gives it. -/
def ctor (lobes : BsdfLobes) : Bsdf K where
  _lobes := lobes
  _emission := Vec3.splat 0
  _base := some (ConstantTexture (Vec3.splat 1))
  _alpha := some (ConstantTexture 1)
  _bump := some (ConstantTexture 0)
  _bumpStrength := 10

/-- `Bsdf::base(info)` (lines 36-39): `(*_base)[info.uv]`. -/
def base (b : Bsdf K) (info : IntersectionInfo K) : Option (Vec3 K) :=
  match b._base with
  | none => none
  | some t => some (t.lookup info.uv)

/-- Lines 83-90 of `setupTangentFrame`: the locals `(T, B, N)` after the bump perturbation and
the sign flip, just before `N.normalize()` on line 91.  `dudv` is what
`_bump->derivatives(info.uv, dudv)` wrote. -/
def bumpedVectors (Ns T B : Vec3 K) (dudv : Vec2 K) (bumpStrength : K) :
    Vec3 K × Vec3 K × Vec3 K :=
  let T := Vec3.add T (Vec3.mulScalar (Vec3.mulScalar Ns dudv.x) bumpStrength)
  let B := Vec3.add B (Vec3.mulScalar (Vec3.mulScalar Ns dudv.y) bumpStrength)
  let N := Vec3.cross T B
  let N := if Vec3.dot N Ns < 0 then Vec3.neg N else N
  (T, B, N)

/-- Line 93 of `setupTangentFrame`: the vector `T - N.dot(T)*N` handed to `normalized()`. -/
def tangentResidual (N T : Vec3 K) : Vec3 K :=
  Vec3.sub T (Vec3.scalarMul (Vec3.dot N T) N)

/-- Line 94 of `setupTangentFrame`: the vector `B - N.dot(B)*N - T.dot(B)*T` handed to
`normalized()`; `T` is the already normalised tangent of line 93. -/
def bitangentResidual (N T B : Vec3 K) : Vec3 K :=
  Vec3.sub (Vec3.sub B (Vec3.scalarMul (Vec3.dot N B) N)) (Vec3.scalarMul (Vec3.dot T B) T)

/-- Lines 93-96 of `setupTangentFrame`: the Gram-Schmidt pass on the locals `(N, T, B)` and
the three-vector constructor `TangentFrame(N, T, B)`. -/
def orthogonalize (sqrt : K → K) (N T B : Vec3 K) : TangentFrame K :=
  let T := Vec3.normalized sqrt (tangentResidual N T)
  let B := Vec3.normalized sqrt (bitangentResidual N T B)
  ⟨N, T, B⟩

/-- `Bsdf::setupTangentFrame(primitive, data, info, dst)` (lines 70-97); the value returned is
the frame written to `dst`. -/
def setupTangentFrame {D : Type} (sqrt : K → K) (complete : Vec3 K → Vec3 K × Vec3 K)
    (b : Bsdf K) (primitive : Primitive K D) (data : D) (info : IntersectionInfo K) :
    Option (TangentFrame K) :=
  match b._bump with
  | none => none
  | some bump =>
    if bump.isConstant && !b._lobes.isAnisotropic then
      some (TangentFrame.ofNormal complete info.Ns)
    else
      match primitive.tangentSpace data info with
      | none => some (TangentFrame.ofNormal complete info.Ns)
      | some (T, B) =>
        if !bump.isConstant then
          let v := bumpedVectors info.Ns T B (bump.derivatives info.uv) b._bumpStrength
          some (orthogonalize sqrt (Vec3.normalized sqrt v.2.2) v.1 v.2.1)
        else
          some (orthogonalize sqrt info.Ns T B)

/-- The vectors on which one call of `setupTangentFrame` that reaches line 82 with the
primitive's pair `(T, B)` invokes `normalize()` / `normalized()`, in program order: the flipped
cross product on line 91 (bump path only), the tangent residual on line 93 and the bitangent
residual on line 94. -/
def normalizeArgs (sqrt : K → K) (b : Bsdf K) (bump : TextureA K) (info : IntersectionInfo K)
    (T B : Vec3 K) : List (Vec3 K) :=
  if !bump.isConstant then
    let v := bumpedVectors info.Ns T B (bump.derivatives info.uv) b._bumpStrength
    let N := Vec3.normalized sqrt v.2.2
    let f := orthogonalize sqrt N v.1 v.2.1
    [v.2.2, tangentResidual N v.1, bitangentResidual N f.tangent v.2.1]
  else
    let f := orthogonalize sqrt info.Ns T B
    [tangentResidual info.Ns T, bitangentResidual info.Ns f.tangent B]

/-- `Bsdf::alpha(info)` (lines 99-102): `(*_alpha)[info.uv]`. -/
def alpha (b : Bsdf K) (info : IntersectionInfo K) : Option K :=
  match b._alpha with
  | none => none
  | some t => some (t.lookup info.uv)

/-- `Bsdf::setupScatter(event)` (lines 104-107); the value returned is `event` after the
call.  The member function is `const`: the `Bsdf` itself is only read. -/
def setupScatter (b : Bsdf K) (event : SurfaceScatterEvent K) : Option (SurfaceScatterEvent K) :=
  match b._base with
  | none => none
  | some t => some { event with throughput := t.lookup event.info.uv }

/-- `Bsdf::flags()` (lines 113-116). -/
def flags (b : Bsdf K) : BsdfLobes := b._lobes

/-- `Bsdf::setEmission(e)` (lines 118-121). -/
def setEmission (b : Bsdf K) (e : Vec3 K) : Bsdf K := { b with _emission := e }

/-- `Bsdf::emission()` (lines 123-126). -/
def emission (b : Bsdf K) : Vec3 K := b._emission

/-- `Bsdf::power()` (lines 128-131). -/
def power (b : Bsdf K) : K := Vec3.max b._emission

/-- `Bsdf::isEmissive()` (lines 133-136). -/
def isEmissive (b : Bsdf K) : Bool := decide (Vec3.max b._emission > 0)

/-- `Bsdf::setColor(c)` (lines 138-141). -/
def setColor (b : Bsdf K) (c : Option (TextureRgb K)) : Bsdf K := { b with _base := c }

/-- `Bsdf::setAlpha(a)` (lines 143-146). -/
def setAlpha (b : Bsdf K) (a : Option (TextureA K)) : Bsdf K := { b with _alpha := a }

/-- `Bsdf::setBump(b)` (lines 148-151). -/
def setBump (b : Bsdf K) (t : Option (TextureA K)) : Bsdf K := { b with _bump := t }

/-- `Bsdf::color()` (lines 153-156 and 168-171): the handle itself. -/
def color (b : Bsdf K) : Option (TextureRgb K) := b._base

/-- `Bsdf::alpha()` (lines 158-161 and 173-176): the handle itself. -/
def alphaHandle (b : Bsdf K) : Option (TextureA K) := b._alpha

/-- `Bsdf::bump()` (lines 163-166 and 178-181): the handle itself. -/
def bump (b : Bsdf K) : Option (TextureA K) := b._bump

/-- Assignment `color() = c` through the reference the non-const `Bsdf::color()` returns
(lines 153-156). -/
def assignColor (b : Bsdf K) (c : Option (TextureRgb K)) : Bsdf K := { b with _base := c }

/-- Assignment `alpha() = a` through the reference the non-const `Bsdf::alpha()` returns
(lines 158-161). -/
def assignAlpha (b : Bsdf K) (a : Option (TextureA K)) : Bsdf K := { b with _alpha := a }

/-- Assignment `bump() = t` through the reference the non-const `Bsdf::bump()` returns
(lines 163-166). -/
def assignBump (b : Bsdf K) (t : Option (TextureA K)) : Bsdf K := { b with _bump := t }

end Bsdf

/-- One call of a public mutator of `Bsdf`, with its argument. -/
inductive Mutator (K : Type) where
  | setEmission (e : Vec3 K)
  | setColor (c : Option (TextureRgb K))
  | setAlpha (a : Option (TextureA K))
  | setBump (t : Option (TextureA K))
  | assignColor (c : Option (TextureRgb K))
  | assignAlpha (a : Option (TextureA K))
  | assignBump (t : Option (TextureA K))

namespace Mutator

variable {K : Type} [LinearOrderedField K]

/-- The state after one mutator call. -/
def apply (b : Bsdf K) : Mutator K → Bsdf K
  | setEmission e => b.setEmission e
  | setColor c => b.setColor c
  | setAlpha a => b.setAlpha a
  | setBump t => b.setBump t
  | assignColor c => b.assignColor c
  | assignAlpha a => b.assignAlpha a
  | assignBump t => b.assignBump t

/-- The state reached from the default-constructed `Bsdf` by the calls `ms`, first to last. -/
def run (lobes : BsdfLobes) (ms : List (Mutator K)) : Bsdf K :=
  ms.foldl apply (Bsdf.ctor lobes)

/-- The call passes no emission whose largest channel is negative. -/
def EmissionNonneg : Mutator K → Prop
  | setEmission e => 0 ≤ Vec3.max e
  | _ => True

/-- The call passes no null texture handle. -/
def HandleNonNull : Mutator K → Prop
  | setEmission _ => True
  | setColor c => c.isSome = true
  | setAlpha a => a.isSome = true
  | setBump t => t.isSome = true
  | assignColor c => c.isSome = true
  | assignAlpha a => a.isSome = true
  | assignBump t => t.isSome = true

end Mutator

/-! ## Sample collaborators, used to run the definitions -/

section Samples

variable {K : Type} [LinearOrderedField K]

/-- A completion for the single-vector frame constructor: always the pair `(e1, e2)`. -/
def sampleComplete : Vec3 K → Vec3 K × Vec3 K := fun _ => (⟨1, 0, 0⟩, ⟨0, 1, 0⟩)

/-- A primitive whose tangent-space query always supplies the pair `(T, B)`. -/
def samplePrimitive (T B : Vec3 K) : Primitive K Unit := ⟨fun _ _ => some (T, B)⟩

/-- A primitive whose tangent-space query always fails. -/
def flatPrimitive : Primitive K Unit := ⟨fun _ _ => none⟩

/-- Intersection info with geometric and shading normal `Ns` at the surface coordinate `uv`. -/
def sampleInfo (Ns : Vec3 K) (uv : Vec2 K) : IntersectionInfo K := ⟨Ns, Ns, uv⟩

/-- A non-constant scalar texture: the height field `a * u + c * v`, with derivative
`(a, c)` everywhere. -/
def rampTexture (a c : K) : TextureA K :=
  ⟨fun uv => a * uv.x + c * uv.y, false, fun _ => ⟨a, c⟩⟩

/-- A non-constant colour texture: the grey ramp `(u, u, u)`. -/
def greyRamp : TextureRgb K :=
  ⟨fun uv => ⟨uv.x, uv.x, uv.x⟩, false, fun _ => ⟨1, 0⟩⟩

/-- A scatter event at the surface coordinate `uv` with throughput `t`. -/
def sampleEvent (uv : Vec2 K) (t : Vec3 K) : SurfaceScatterEvent K :=
  ⟨sampleInfo ⟨0, 0, 1⟩ uv, ⟨0, 0, 1⟩, ⟨0, 0, -1⟩, t, ⟨0, false⟩⟩

end Samples

/-! ## Specification vocabulary -/

section Vocabulary

variable {K : Type} [LinearOrderedField K]

/-- The function `sqrt` is the exact square root on the non-negative scalars, as
`Real.sqrt` is on `ℝ`. -/
def ExactSqrt (sqrt : K → K) : Prop :=
  ∀ x : K, 0 ≤ x → 0 ≤ sqrt x ∧ sqrt x * sqrt x = x

/-- The frame is orthonormal: `N`, `T`, `B` have unit length and are pairwise orthogonal. -/
def TangentFrame.Orthonormal (sqrt : K → K) (f : TangentFrame K) : Prop :=
  Vec3.length sqrt f.normal = 1 ∧ Vec3.length sqrt f.tangent = 1 ∧
    Vec3.length sqrt f.bitangent = 1 ∧ Vec3.dot f.normal f.tangent = 0 ∧
    Vec3.dot f.normal f.bitangent = 0 ∧ Vec3.dot f.tangent f.bitangent = 0

/-- The vectors `a` and `b` are linearly independent: the only combination `a*s + b*t` that
vanishes is the trivial one. -/
def Vec3.Independent (a b : Vec3 K) : Prop :=
  ∀ s t : K, Vec3.add (Vec3.mulScalar a s) (Vec3.mulScalar b t) = ⟨0, 0, 0⟩ → s = 0 ∧ t = 0

/-- All three texture handles of the `Bsdf` are non-null. -/
def Bsdf.HandlesNonNull (b : Bsdf K) : Prop :=
  b._base.isSome = true ∧ b._alpha.isSome = true ∧ b._bump.isSome = true

end Vocabulary

/-! ## Vector algebra -/

namespace Vec3

variable {K : Type} [LinearOrderedField K]

theorem lengthSq_eq_dot (a : Vec3 K) : lengthSq a = dot a a := rfl

theorem lengthSq_nonneg (a : Vec3 K) : 0 ≤ lengthSq a := by
  unfold lengthSq
  have hx := mul_self_nonneg a.x
  have hy := mul_self_nonneg a.y
  have hz := mul_self_nonneg a.z
  linarith

theorem dot_comm (a b : Vec3 K) : dot a b = dot b a := by
  simp only [dot]; ring

theorem dot_mulScalar_left (a b : Vec3 K) (s : K) : dot (mulScalar a s) b = s * dot a b := by
  simp only [dot, mulScalar]; ring

theorem dot_mulScalar_right (a b : Vec3 K) (s : K) : dot a (mulScalar b s) = s * dot a b := by
  simp only [dot, mulScalar]; ring

theorem dot_neg_left (a b : Vec3 K) : dot (neg a) b = - dot a b := by
  simp only [dot, neg]; ring

theorem dot_cross_left (a b : Vec3 K) : dot (cross a b) a = 0 := by
  simp only [dot, cross]; ring

theorem dot_cross_right (a b : Vec3 K) : dot (cross a b) b = 0 := by
  simp only [dot, cross]; ring

theorem lengthSq_neg (a : Vec3 K) : lengthSq (neg a) = lengthSq a := by
  simp only [lengthSq, neg]; ring

theorem sqrt_one_of_exact {sqrt : K → K} (h : ExactSqrt sqrt) : sqrt 1 = 1 := by
  obtain ⟨h0, h1⟩ := h 1 zero_le_one
  have h2 : (sqrt 1 - 1) * (sqrt 1 + 1) = 0 := by ring_nf; ring_nf at h1; rw [h1]; ring
  rcases mul_eq_zero.mp h2 with h3 | h3
  · linarith
  · linarith

theorem length_mul_self {sqrt : K → K} (h : ExactSqrt sqrt) (a : Vec3 K) :
    length sqrt a * length sqrt a = lengthSq a :=
  (h _ (lengthSq_nonneg a)).2

theorem length_nonneg {sqrt : K → K} (h : ExactSqrt sqrt) (a : Vec3 K) : 0 ≤ length sqrt a :=
  (h _ (lengthSq_nonneg a)).1

theorem length_eq_one_of_lengthSq {sqrt : K → K} (h : ExactSqrt sqrt) {a : Vec3 K}
    (ha : lengthSq a = 1) : length sqrt a = 1 := by
  unfold length; rw [ha]; exact sqrt_one_of_exact h

theorem lengthSq_of_length_eq_one {sqrt : K → K} (h : ExactSqrt sqrt) {a : Vec3 K}
    (ha : length sqrt a = 1) : lengthSq a = 1 := by
  have := length_mul_self h a
  rw [ha] at this; linarith

theorem dot_normalized_left (sqrt : K → K) (a b : Vec3 K) :
    dot (normalized sqrt a) b = (1 / length sqrt a) * dot a b := by
  unfold normalized; exact dot_mulScalar_left a b _

theorem dot_normalized_right (sqrt : K → K) (a b : Vec3 K) :
    dot a (normalized sqrt b) = (1 / length sqrt b) * dot a b := by
  unfold normalized; exact dot_mulScalar_right a b _

theorem lengthSq_normalized {sqrt : K → K} (h : ExactSqrt sqrt) {a : Vec3 K}
    (ha : length sqrt a ≠ 0) : lengthSq (normalized sqrt a) = 1 := by
  have hl := length_mul_self h a
  rw [lengthSq_eq_dot, dot_normalized_left, dot_normalized_right, ← lengthSq_eq_dot, ← hl]
  field_simp

theorem eq_zero_of_lengthSq_eq_zero {a : Vec3 K} (ha : lengthSq a = 0) : a = ⟨0, 0, 0⟩ := by
  unfold lengthSq at ha
  have hx := mul_self_nonneg a.x
  have hy := mul_self_nonneg a.y
  have hz := mul_self_nonneg a.z
  have h1 : a.x * a.x = 0 := by linarith
  have h2 : a.y * a.y = 0 := by linarith
  have h3 : a.z * a.z = 0 := by linarith
  cases a
  simp only [mul_self_eq_zero] at h1 h2 h3
  simp [h1, h2, h3]

theorem length_ne_zero {sqrt : K → K} (h : ExactSqrt sqrt) {a : Vec3 K}
    (ha : a ≠ ⟨0, 0, 0⟩) : length sqrt a ≠ 0 := by
  intro h0
  apply ha
  apply eq_zero_of_lengthSq_eq_zero
  rw [← length_mul_self h a, h0, mul_zero]

theorem neg_ne_zero {a : Vec3 K} (ha : a ≠ ⟨0, 0, 0⟩) : neg a ≠ ⟨0, 0, 0⟩ := by
  intro h0
  apply ha
  cases a
  simp only [neg, mk.injEq, neg_eq_zero] at h0
  simp [h0]

theorem length_normalized {sqrt : K → K} (h : ExactSqrt sqrt) {a : Vec3 K}
    (ha : length sqrt a ≠ 0) : length sqrt (normalized sqrt a) = 1 :=
  length_eq_one_of_lengthSq h (lengthSq_normalized h ha)

end Vec3

/-! ## Cross products and normalisation -/

namespace Vec3

variable {K : Type} [LinearOrderedField K]

theorem neg_neg_eq (a : Vec3 K) : neg (neg a) = a := by
  cases a; simp [neg]

theorem sub_scalarMul_zero (a n : Vec3 K) : sub a (scalarMul 0 n) = a := by
  cases a; simp [sub, scalarMul]

theorem mulScalar_one (a : Vec3 K) : mulScalar a 1 = a := by
  cases a; simp [mulScalar]

theorem lengthSq_cross (a b : Vec3 K) :
    lengthSq (cross a b) = lengthSq a * lengthSq b - dot a b * dot a b := by
  simp only [lengthSq, cross, dot]; ring

theorem cross_mulScalar (a b : Vec3 K) (s t : K) :
    cross (mulScalar a s) (mulScalar b t) = mulScalar (cross a b) (s * t) := by
  simp only [cross, mulScalar, mk.injEq]
  refine ⟨?_, ?_, ?_⟩ <;> ring

theorem cross_sub_scalarMul (a b : Vec3 K) (k s : K) :
    cross a (sub b (scalarMul k (mulScalar a s))) = cross a b := by
  simp only [cross, sub, scalarMul, mulScalar, mk.injEq]
  refine ⟨?_, ?_, ?_⟩ <;> ring

theorem lengthSq_sub_scalarMul (a b : Vec3 K) (s : K) :
    lengthSq (sub b (scalarMul (dot (mulScalar a s) b) (mulScalar a s)))
      = lengthSq b - 2 * (s * s) * (dot a b * dot a b)
        + (s * s) * (s * s) * (dot a b * dot a b) * lengthSq a := by
  simp only [lengthSq, sub, scalarMul, mulScalar, dot]; ring

theorem normalized_neg (sqrt : K → K) (a : Vec3 K) :
    normalized sqrt (neg a) = neg (normalized sqrt a) := by
  simp only [normalized, length, lengthSq_neg]
  simp only [neg, mulScalar, mk.injEq]
  refine ⟨?_, ?_, ?_⟩ <;> ring

theorem normalized_of_length_eq_one (sqrt : K → K) {a : Vec3 K} (ha : length sqrt a = 1) :
    normalized sqrt a = a := by
  unfold normalized; rw [ha, div_one, mulScalar_one]

/-- Linearly independent vectors have a non-zero cross product. -/
theorem cross_ne_zero_of_independent {a b : Vec3 K} (h : Independent a b) :
    cross a b ≠ ⟨0, 0, 0⟩ := by
  intro hc
  simp only [cross, mk.injEq] at hc
  obtain ⟨hx, hy, hz⟩ := hc
  have h1 := h (dot a b) (-(lengthSq a)) (by
    simp only [add, mulScalar, dot, lengthSq, mk.injEq]
    refine ⟨?_, ?_, ?_⟩
    · linear_combination a.y * hz - a.z * hy
    · linear_combination a.z * hx - a.x * hz
    · linear_combination a.x * hy - a.y * hx)
  have ha : a = ⟨0, 0, 0⟩ := eq_zero_of_lengthSq_eq_zero (neg_eq_zero.mp h1.2)
  have h2 := h 1 0 (by rw [ha]; simp [add, mulScalar])
  exact one_ne_zero h2.1

theorem lengthSq_ne_zero {a : Vec3 K} (ha : a ≠ ⟨0, 0, 0⟩) : lengthSq a ≠ 0 :=
  fun h => ha (eq_zero_of_lengthSq_eq_zero h)

/-- An exact square root is multiplicative on the non-negative scalars. -/
theorem sqrt_mul_of_exact {sqrt : K → K} (h : ExactSqrt sqrt) {x y : K} (hx : 0 ≤ x)
    (hy : 0 ≤ y) : sqrt (x * y) = sqrt x * sqrt y := by
  obtain ⟨hx0, hx1⟩ := h x hx
  obtain ⟨hy0, hy1⟩ := h y hy
  obtain ⟨hp0, hp1⟩ := h (x * y) (mul_nonneg hx hy)
  apply (mul_self_inj hp0 (mul_nonneg hx0 hy0)).mp
  rw [hp1]
  calc x * y = (sqrt x * sqrt x) * (sqrt y * sqrt y) := by rw [hx1, hy1]
    _ = sqrt x * sqrt y * (sqrt x * sqrt y) := by ring

/-- Normalising `a`, removing from `b` its component along the normalised `a` and normalising
the rest gives a pair whose cross product is the normalised `a x b`. -/
theorem cross_normalized_residual {sqrt : K → K} (h : ExactSqrt sqrt) (a b : Vec3 K)
    (hc : cross a b ≠ ⟨0, 0, 0⟩) :
    cross (normalized sqrt a)
        (normalized sqrt
          (sub b (scalarMul (dot (normalized sqrt a) b) (normalized sqrt a))))
      = normalized sqrt (cross a b) := by
  have ha : lengthSq a ≠ 0 := by
    intro h0
    apply hc
    rw [eq_zero_of_lengthSq_eq_zero h0]
    simp [cross]
  have hla : length sqrt a ≠ 0 := by
    intro h0
    apply ha
    rw [← length_mul_self h a, h0, mul_zero]
  have hs : (1 / length sqrt a) * (1 / length sqrt a) * lengthSq a = 1 := by
    rw [← length_mul_self h a]; field_simp
  have hr : lengthSq a
      * lengthSq (sub b (scalarMul (dot (normalized sqrt a) b) (normalized sqrt a)))
      = lengthSq (cross a b) := by
    unfold normalized
    rw [lengthSq_sub_scalarMul, lengthSq_cross]
    linear_combination
      (dot a b * dot a b * ((1 / length sqrt a) * (1 / length sqrt a) * lengthSq a - 1)) * hs
  have hlen : length sqrt a
      * length sqrt (sub b (scalarMul (dot (normalized sqrt a) b) (normalized sqrt a)))
      = length sqrt (cross a b) := by
    unfold length
    rw [← sqrt_mul_of_exact h (lengthSq_nonneg _) (lengthSq_nonneg _), hr]
  have hcr : cross a (sub b (scalarMul (dot (normalized sqrt a) b) (normalized sqrt a)))
      = cross a b := cross_sub_scalarMul a b _ _
  calc cross (normalized sqrt a)
        (normalized sqrt (sub b (scalarMul (dot (normalized sqrt a) b) (normalized sqrt a))))
      = mulScalar
          (cross a (sub b (scalarMul (dot (normalized sqrt a) b) (normalized sqrt a))))
          (1 / length sqrt a * (1 / length sqrt
            (sub b (scalarMul (dot (normalized sqrt a) b) (normalized sqrt a))))) :=
        cross_mulScalar _ _ _ _
    _ = mulScalar (cross a b) (1 / length sqrt (cross a b)) := by
        rw [hcr, one_div_mul_one_div, hlen]

end Vec3

/-! ## The Gram-Schmidt pass -/

namespace Bsdf

variable {K : Type} [LinearOrderedField K]

theorem dot_tangentResidual (N T : Vec3 K) :
    Vec3.dot N (tangentResidual N T) = Vec3.dot N T * (1 - Vec3.dot N N) := by
  simp only [tangentResidual, Vec3.dot, Vec3.sub, Vec3.scalarMul]; ring

theorem dot_normal_bitangentResidual (N T B : Vec3 K) :
    Vec3.dot N (bitangentResidual N T B)
      = Vec3.dot N B * (1 - Vec3.dot N N) - Vec3.dot T B * Vec3.dot N T := by
  simp only [bitangentResidual, Vec3.dot, Vec3.sub, Vec3.scalarMul]; ring

theorem dot_tangent_bitangentResidual (N T B : Vec3 K) :
    Vec3.dot T (bitangentResidual N T B)
      = Vec3.dot T B * (1 - Vec3.dot T T) - Vec3.dot N B * Vec3.dot N T := by
  simp only [bitangentResidual, Vec3.dot, Vec3.sub, Vec3.scalarMul]; ring

/-- The Gram-Schmidt pass of lines 93-96 gives an orthonormal frame when it starts from a unit
normal and neither residual has zero length. -/
theorem orthogonalize_orthonormal {sqrt : K → K} (h : ExactSqrt sqrt) (N T B : Vec3 K)
    (hN : Vec3.lengthSq N = 1)
    (hT : Vec3.length sqrt (tangentResidual N T) ≠ 0)
    (hB : Vec3.length sqrt
      (bitangentResidual N (Vec3.normalized sqrt (tangentResidual N T)) B) ≠ 0) :
    (orthogonalize sqrt N T B).Orthonormal sqrt := by
  have hNN : Vec3.dot N N = 1 := hN
  have hNT : Vec3.dot N (Vec3.normalized sqrt (tangentResidual N T)) = 0 := by
    rw [Vec3.dot_normalized_right, dot_tangentResidual, hNN]; ring
  have hTT : Vec3.dot (Vec3.normalized sqrt (tangentResidual N T))
      (Vec3.normalized sqrt (tangentResidual N T)) = 1 := Vec3.lengthSq_normalized h hT
  refine ⟨Vec3.length_eq_one_of_lengthSq h hN, Vec3.length_normalized h hT,
    Vec3.length_normalized h hB, hNT, ?_, ?_⟩
  · show Vec3.dot N (Vec3.normalized sqrt _) = 0
    rw [Vec3.dot_normalized_right, dot_normal_bitangentResidual, hNN, hNT]; ring
  · show Vec3.dot (Vec3.normalized sqrt (tangentResidual N T)) (Vec3.normalized sqrt _) = 0
    rw [Vec3.dot_normalized_right, dot_tangent_bitangentResidual, hTT, hNT]; ring

/-! ### The four ways through `setupTangentFrame` -/

theorem setupTangentFrame_eq_fast {D : Type} (sqrt : K → K)
    (complete : Vec3 K → Vec3 K × Vec3 K) {b : Bsdf K} {bump : TextureA K}
    (primitive : Primitive K D) (data : D) (info : IntersectionInfo K)
    (hb : b._bump = some bump) (hc : bump.isConstant = true)
    (ha : b._lobes.isAnisotropic = false) :
    setupTangentFrame sqrt complete b primitive data info
      = some (TangentFrame.ofNormal complete info.Ns) := by
  simp [setupTangentFrame, hb, hc, ha]

theorem setupTangentFrame_eq_fallback {D : Type} (sqrt : K → K)
    (complete : Vec3 K → Vec3 K × Vec3 K) {b : Bsdf K} {bump : TextureA K}
    {primitive : Primitive K D} {data : D} {info : IntersectionInfo K}
    (hb : b._bump = some bump)
    (hts : primitive.tangentSpace data info = none) :
    setupTangentFrame sqrt complete b primitive data info
      = some (TangentFrame.ofNormal complete info.Ns) := by
  simp [setupTangentFrame, hb, hts]

theorem setupTangentFrame_eq_bumped {D : Type} (sqrt : K → K)
    (complete : Vec3 K → Vec3 K × Vec3 K) {b : Bsdf K} {bump : TextureA K}
    {primitive : Primitive K D} {data : D} {info : IntersectionInfo K} {T B : Vec3 K}
    (hb : b._bump = some bump) (hc : bump.isConstant = false)
    (hts : primitive.tangentSpace data info = some (T, B)) :
    setupTangentFrame sqrt complete b primitive data info
      = some (orthogonalize sqrt
          (Vec3.normalized sqrt
            (bumpedVectors info.Ns T B (bump.derivatives info.uv) b._bumpStrength).2.2)
          (bumpedVectors info.Ns T B (bump.derivatives info.uv) b._bumpStrength).1
          (bumpedVectors info.Ns T B (bump.derivatives info.uv) b._bumpStrength).2.1) := by
  simp [setupTangentFrame, hb, hc, hts]

theorem setupTangentFrame_eq_unbumped {D : Type} (sqrt : K → K)
    (complete : Vec3 K → Vec3 K × Vec3 K) {b : Bsdf K} {bump : TextureA K}
    {primitive : Primitive K D} {data : D} {info : IntersectionInfo K} {T B : Vec3 K}
    (hb : b._bump = some bump) (hc : bump.isConstant = true)
    (ha : b._lobes.isAnisotropic = true)
    (hts : primitive.tangentSpace data info = some (T, B)) :
    setupTangentFrame sqrt complete b primitive data info
      = some (orthogonalize sqrt info.Ns T B) := by
  simp [setupTangentFrame, hb, hc, ha, hts]

end Bsdf

/-! ## The real square root -/

theorem exactSqrt_real : ExactSqrt Real.sqrt :=
  fun x hx => ⟨Real.sqrt_nonneg x, Real.mul_self_sqrt hx⟩

/-- The vectors normalised on the bump path for the ramp of slope `3/40`, strength `10`,
`Ns = e3`, `T = e1`, `B = e2`. -/
theorem normalizeArgs_ramp :
    Bsdf.normalizeArgs Real.sqrt ((Bsdf.ctor ⟨0, false⟩).setBump (some (rampTexture (3 / 40) 0)))
        (rampTexture (3 / 40) 0) (sampleInfo ⟨0, 0, 1⟩ ⟨0, 0⟩) ⟨1, 0, 0⟩ ⟨0, 1, 0⟩
      = [⟨-3 / 4, 0, 1⟩, ⟨1, 0, 3 / 4⟩, ⟨0, 1, 0⟩] := by
  simp [Bsdf.normalizeArgs, Bsdf.bumpedVectors, Bsdf.orthogonalize, Bsdf.tangentResidual,
    Bsdf.bitangentResidual, rampTexture, sampleInfo, Bsdf.setBump, Bsdf.ctor, Vec3.normalized,
    Vec3.length, Vec3.lengthSq, Vec3.dot, Vec3.cross, Vec3.add, Vec3.sub, Vec3.neg,
    Vec3.mulScalar, Vec3.scalarMul]
  norm_num
  ring

/-! ## Tangent-frame construction -/

section TangentFrames

variable {K : Type} [LinearOrderedField K]

/-- C1, as amended: when `setupTangentFrame` builds its result from the primitive's pair
`(T, B)` (non-constant bump or anisotropic lobes, `tangentSpace` succeeded), no vector passed
to `normalize` has zero length, and, on the path without bump perturbation, the shading normal
`Ns` has unit length, the frame written to `dst` is orthonormal over exact arithmetic. -/
theorem setupTangentFrame_orthonormal {D : Type} (sqrt : K → K) (hsqrt : ExactSqrt sqrt)
    (complete : Vec3 K → Vec3 K × Vec3 K) (b : Bsdf K) (bump : TextureA K)
    (primitive : Primitive K D) (data : D) (info : IntersectionInfo K) (T B : Vec3 K)
    (hb : b._bump = some bump)
    (hslow : bump.isConstant = false ∨ b._lobes.isAnisotropic = true)
    (hts : primitive.tangentSpace data info = some (T, B))
    (hNs : bump.isConstant = true → Vec3.length sqrt info.Ns = 1)
    (hnz : ∀ v ∈ Bsdf.normalizeArgs sqrt b bump info T B, Vec3.length sqrt v ≠ 0) :
    ∃ f, Bsdf.setupTangentFrame sqrt complete b primitive data info = some f ∧
      f.Orthonormal sqrt := by
  cases hc : bump.isConstant with
  | false =>
    refine ⟨_, Bsdf.setupTangentFrame_eq_bumped sqrt complete hb hc hts, ?_⟩
    simp only [Bsdf.normalizeArgs, hc, Bool.not_false, if_true, List.mem_cons,
      List.mem_singleton, List.not_mem_nil, or_false, forall_eq_or_imp, forall_eq] at hnz
    obtain ⟨h1, h2, h3⟩ := hnz
    exact Bsdf.orthogonalize_orthonormal hsqrt _ _ _ (Vec3.lengthSq_normalized hsqrt h1) h2 h3
  | true =>
    have ha : b._lobes.isAnisotropic = true := by
      rcases hslow with h | h
      · rw [hc] at h; exact absurd h (by decide)
      · exact h
    refine ⟨_, Bsdf.setupTangentFrame_eq_unbumped sqrt complete hb hc ha hts, ?_⟩
    simp only [Bsdf.normalizeArgs, hc, Bool.not_true, Bool.false_eq_true, if_false,
      List.mem_cons, List.mem_singleton, List.not_mem_nil, or_false, forall_eq_or_imp,
      forall_eq] at hnz
    obtain ⟨h2, h3⟩ := hnz
    exact Bsdf.orthogonalize_orthonormal hsqrt _ _ _
      (Vec3.lengthSq_of_length_eq_one hsqrt (hNs hc)) h2 h3

/-- C1, witness: over `ℝ`, the bump path with the ramp of slope `3/40`, and the path without
bump perturbation with anisotropic lobes and the unit normal `Ns = e3`. -/
theorem setupTangentFrame_orthonormal_witness :
    (∃ f, Bsdf.setupTangentFrame Real.sqrt sampleComplete
        ((Bsdf.ctor ⟨0, false⟩).setBump (some (rampTexture (3 / 40) 0)))
        (samplePrimitive ⟨1, 0, 0⟩ ⟨0, 1, 0⟩) () (sampleInfo ⟨0, 0, 1⟩ ⟨0, 0⟩) = some f ∧
      f.Orthonormal Real.sqrt) ∧
    (∃ f, Bsdf.setupTangentFrame Real.sqrt sampleComplete (Bsdf.ctor ⟨0, true⟩)
        (samplePrimitive ⟨1, 0, 1⟩ ⟨0, 1, 0⟩) () (sampleInfo ⟨0, 0, 1⟩ ⟨0, 0⟩) = some f ∧
      f.Orthonormal Real.sqrt) :=
  ⟨setupTangentFrame_orthonormal Real.sqrt exactSqrt_real sampleComplete
    ((Bsdf.ctor ⟨0, false⟩).setBump (some (rampTexture (3 / 40) 0))) (rampTexture (3 / 40) 0)
    (samplePrimitive ⟨1, 0, 0⟩ ⟨0, 1, 0⟩) () (sampleInfo ⟨0, 0, 1⟩ ⟨0, 0⟩) ⟨1, 0, 0⟩ ⟨0, 1, 0⟩
    rfl (Or.inl rfl) rfl (fun h => absurd h (by decide))
    (by
      rw [normalizeArgs_ramp]
      intro v hv
      simp only [List.mem_cons, List.mem_singleton, List.not_mem_nil, or_false] at hv
      rcases hv with rfl | rfl | rfl <;>
        simp [Vec3.length, Vec3.lengthSq] <;> norm_num),
   setupTangentFrame_orthonormal Real.sqrt exactSqrt_real sampleComplete
    (Bsdf.ctor ⟨0, true⟩) (ConstantTexture 0)
    (samplePrimitive ⟨1, 0, 1⟩ ⟨0, 1, 0⟩) () (sampleInfo ⟨0, 0, 1⟩ ⟨0, 0⟩) ⟨1, 0, 1⟩ ⟨0, 1, 0⟩
    rfl (Or.inr rfl) rfl
    (fun _ => by simp [sampleInfo, Vec3.length, Vec3.lengthSq])
    (by
      simp [Bsdf.normalizeArgs, ConstantTexture, Bsdf.orthogonalize, Bsdf.tangentResidual,
        Bsdf.bitangentResidual, sampleInfo, Vec3.normalized, Vec3.length, Vec3.lengthSq,
        Vec3.dot, Vec3.sub, Vec3.mulScalar, Vec3.scalarMul])⟩

/-- C1, counterexample: anisotropic lobes, constant bump, `Ns = (0, 0, 2)`, and the primitive
supplies `T = e1`, `B = e2`.  No vector passed to `normalize` has zero length, the frame
written is `{(0,0,2), e1, e2}`, and its normal does not have unit length. -/
theorem setupTangentFrame_orthonormal_counterexample :
    (∀ v ∈ Bsdf.normalizeArgs Real.sqrt (Bsdf.ctor ⟨0, true⟩) (ConstantTexture 0)
        (sampleInfo ⟨0, 0, 2⟩ ⟨0, 0⟩) ⟨1, 0, 0⟩ ⟨0, 1, 0⟩, Vec3.length Real.sqrt v ≠ 0) ∧
    Bsdf.setupTangentFrame Real.sqrt sampleComplete (Bsdf.ctor ⟨0, true⟩)
        (samplePrimitive ⟨1, 0, 0⟩ ⟨0, 1, 0⟩) () (sampleInfo ⟨0, 0, 2⟩ ⟨0, 0⟩)
      = some ⟨⟨0, 0, 2⟩, ⟨1, 0, 0⟩, ⟨0, 1, 0⟩⟩ ∧
    ¬ TangentFrame.Orthonormal Real.sqrt
      (⟨⟨0, 0, 2⟩, ⟨1, 0, 0⟩, ⟨0, 1, 0⟩⟩ : TangentFrame ℝ) := by
  refine ⟨?_, ?_, ?_⟩
  · simp [Bsdf.normalizeArgs, ConstantTexture, Bsdf.orthogonalize, Bsdf.tangentResidual,
      Bsdf.bitangentResidual, sampleInfo, Vec3.normalized, Vec3.length, Vec3.lengthSq, Vec3.dot,
      Vec3.sub, Vec3.mulScalar, Vec3.scalarMul]
  · simp [Bsdf.setupTangentFrame, Bsdf.ctor, ConstantTexture, samplePrimitive,
      Bsdf.orthogonalize, Bsdf.tangentResidual, Bsdf.bitangentResidual, sampleInfo,
      Vec3.normalized, Vec3.length, Vec3.lengthSq, Vec3.dot, Vec3.sub, Vec3.mulScalar,
      Vec3.scalarMul]
  · simp [TangentFrame.Orthonormal, Vec3.length, Vec3.lengthSq, Vec3.dot]

/-- C2: with a constant bump texture and no anisotropic lobe, `setupTangentFrame` writes the
single-vector frame `TangentFrame(info.Ns)`, whose normal is `info.Ns`; any other material on
the fast path, with any primitive, intersection data, bump derivative and `bumpStrength`,
writes the same frame. -/
theorem setupTangentFrame_fast_path {D : Type} (sqrt : K → K)
    (complete : Vec3 K → Vec3 K × Vec3 K) (b : Bsdf K) (bump : TextureA K)
    (primitive : Primitive K D) (data : D) (info : IntersectionInfo K)
    (hb : b._bump = some bump) (hc : bump.isConstant = true)
    (ha : b._lobes.isAnisotropic = false) :
    Bsdf.setupTangentFrame sqrt complete b primitive data info
        = some (TangentFrame.ofNormal complete info.Ns) ∧
      (TangentFrame.ofNormal complete info.Ns).normal = info.Ns ∧
      ∀ (b2 : Bsdf K) (bump2 : TextureA K) (primitive2 : Primitive K D) (data2 : D),
        b2._bump = some bump2 → bump2.isConstant = true → b2._lobes.isAnisotropic = false →
        Bsdf.setupTangentFrame sqrt complete b2 primitive2 data2 info
          = Bsdf.setupTangentFrame sqrt complete b primitive data info := by
  refine ⟨Bsdf.setupTangentFrame_eq_fast sqrt complete primitive data info hb hc ha, rfl, ?_⟩
  intro b2 bump2 primitive2 data2 hb2 hc2 ha2
  rw [Bsdf.setupTangentFrame_eq_fast sqrt complete primitive2 data2 info hb2 hc2 ha2,
    Bsdf.setupTangentFrame_eq_fast sqrt complete primitive data info hb hc ha]

/-- C2, witness: the default-constructed material without anisotropic lobes, over `ℝ`. -/
theorem setupTangentFrame_fast_path_witness :
    Bsdf.setupTangentFrame Real.sqrt sampleComplete (Bsdf.ctor ⟨0, false⟩)
        (samplePrimitive ⟨1, 0, 0⟩ ⟨0, 1, 0⟩) () (sampleInfo ⟨0, 0, 2⟩ ⟨0, 0⟩)
      = some (TangentFrame.ofNormal sampleComplete ⟨0, 0, 2⟩) :=
  (setupTangentFrame_fast_path Real.sqrt sampleComplete (Bsdf.ctor ⟨0, false⟩)
    (ConstantTexture 0) (samplePrimitive ⟨1, 0, 0⟩ ⟨0, 1, 0⟩) () (sampleInfo ⟨0, 0, 2⟩ ⟨0, 0⟩)
    rfl rfl rfl).1

/-- C3: off the fast path (non-constant bump or anisotropic lobes), when the primitive's
`tangentSpace` query supplies no pair, `setupTangentFrame` returns normally with the
single-vector frame `TangentFrame(info.Ns)`, the frame of the fast path, whatever the bump
derivative and `bumpStrength` are. -/
theorem setupTangentFrame_no_tangent_space {D : Type} (sqrt : K → K)
    (complete : Vec3 K → Vec3 K × Vec3 K) (b : Bsdf K) (bump : TextureA K)
    (primitive : Primitive K D) (data : D) (info : IntersectionInfo K)
    (hb : b._bump = some bump)
    (_hslow : bump.isConstant = false ∨ b._lobes.isAnisotropic = true)
    (hts : primitive.tangentSpace data info = none) :
    Bsdf.setupTangentFrame sqrt complete b primitive data info
        = some (TangentFrame.ofNormal complete info.Ns) ∧
      ∀ (b2 : Bsdf K) (bump2 : TextureA K) (primitive2 : Primitive K D) (data2 : D),
        b2._bump = some bump2 → bump2.isConstant = true → b2._lobes.isAnisotropic = false →
        Bsdf.setupTangentFrame sqrt complete b primitive data info
          = Bsdf.setupTangentFrame sqrt complete b2 primitive2 data2 info := by
  refine ⟨Bsdf.setupTangentFrame_eq_fallback sqrt complete hb hts, ?_⟩
  intro b2 bump2 primitive2 data2 hb2 hc2 ha2
  rw [Bsdf.setupTangentFrame_eq_fallback sqrt complete hb hts,
    Bsdf.setupTangentFrame_eq_fast sqrt complete primitive2 data2 info hb2 hc2 ha2]

/-- C3, witness: a ramp bump texture on a primitive without tangent space, over `ℝ`. -/
theorem setupTangentFrame_no_tangent_space_witness :
    Bsdf.setupTangentFrame Real.sqrt sampleComplete
        ((Bsdf.ctor ⟨0, false⟩).setBump (some (rampTexture (3 / 40) 0)))
        flatPrimitive () (sampleInfo ⟨0, 0, 1⟩ ⟨0, 0⟩)
      = some (TangentFrame.ofNormal sampleComplete ⟨0, 0, 1⟩) :=
  (setupTangentFrame_no_tangent_space Real.sqrt sampleComplete
    ((Bsdf.ctor ⟨0, false⟩).setBump (some (rampTexture (3 / 40) 0))) (rampTexture (3 / 40) 0)
    flatPrimitive () (sampleInfo ⟨0, 0, 1⟩ ⟨0, 0⟩) rfl (Or.inl rfl) rfl).1

/-- C4: with anisotropic lobes and a constant bump texture the fast path is not taken: the
result is decided by the primitive's `tangentSpace` answer.  When it supplies `(T, B)` the
frame is `TangentFrame(N, T1, B1)` with `N = info.Ns`, `T1 = normalize(T - (N.T) N)` and
`B1 = normalize(B - (N.B) N - (T1.B) T1)`; any other anisotropic material with a constant bump
texture, whatever its bump derivative and `bumpStrength`, gets the same result. -/
theorem setupTangentFrame_anisotropic {D : Type} (sqrt : K → K)
    (complete : Vec3 K → Vec3 K × Vec3 K) (b : Bsdf K) (bump : TextureA K)
    (primitive : Primitive K D) (data : D) (info : IntersectionInfo K)
    (hb : b._bump = some bump) (hc : bump.isConstant = true)
    (ha : b._lobes.isAnisotropic = true) :
    (primitive.tangentSpace data info = none →
      Bsdf.setupTangentFrame sqrt complete b primitive data info
        = some (TangentFrame.ofNormal complete info.Ns)) ∧
    (∀ T B T1 B1 : Vec3 K, primitive.tangentSpace data info = some (T, B) →
      T1 = Vec3.normalized sqrt
        (Vec3.sub T (Vec3.scalarMul (Vec3.dot info.Ns T) info.Ns)) →
      B1 = Vec3.normalized sqrt
        (Vec3.sub (Vec3.sub B (Vec3.scalarMul (Vec3.dot info.Ns B) info.Ns))
          (Vec3.scalarMul (Vec3.dot T1 B) T1)) →
      Bsdf.setupTangentFrame sqrt complete b primitive data info = some ⟨info.Ns, T1, B1⟩) ∧
    (∀ (b2 : Bsdf K) (bump2 : TextureA K), b2._bump = some bump2 → bump2.isConstant = true →
      b2._lobes.isAnisotropic = true →
      Bsdf.setupTangentFrame sqrt complete b2 primitive data info
        = Bsdf.setupTangentFrame sqrt complete b primitive data info) := by
  refine ⟨fun hts => Bsdf.setupTangentFrame_eq_fallback sqrt complete hb hts, ?_, ?_⟩
  · intro T B T1 B1 hts hT1 hB1
    rw [Bsdf.setupTangentFrame_eq_unbumped sqrt complete hb hc ha hts, hB1, hT1]
    rfl
  · intro b2 bump2 hb2 hc2 ha2
    cases hts : primitive.tangentSpace data info with
    | none =>
      rw [Bsdf.setupTangentFrame_eq_fallback sqrt complete hb hts,
        Bsdf.setupTangentFrame_eq_fallback sqrt complete hb2 hts]
    | some p =>
      obtain ⟨T, B⟩ := p
      rw [Bsdf.setupTangentFrame_eq_unbumped sqrt complete hb hc ha hts,
        Bsdf.setupTangentFrame_eq_unbumped sqrt complete hb2 hc2 ha2 hts]

/-- C4, witness: the default-constructed material with anisotropic lobes, `Ns = e3`, and a
primitive supplying `T = (1, 0, 1)`, `B = e2`: the frame written is `{e3, e1, e2}`. -/
theorem setupTangentFrame_anisotropic_witness :
    Bsdf.setupTangentFrame Real.sqrt sampleComplete (Bsdf.ctor ⟨0, true⟩)
        (samplePrimitive ⟨1, 0, 1⟩ ⟨0, 1, 0⟩) () (sampleInfo ⟨0, 0, 1⟩ ⟨0, 0⟩)
      = some ⟨⟨0, 0, 1⟩, ⟨1, 0, 0⟩, ⟨0, 1, 0⟩⟩ :=
  (setupTangentFrame_anisotropic Real.sqrt sampleComplete (Bsdf.ctor ⟨0, true⟩)
    (ConstantTexture 0) (samplePrimitive ⟨1, 0, 1⟩ ⟨0, 1, 0⟩) () (sampleInfo ⟨0, 0, 1⟩ ⟨0, 0⟩)
    rfl rfl rfl).2.1 ⟨1, 0, 1⟩ ⟨0, 1, 0⟩ ⟨1, 0, 0⟩ ⟨0, 1, 0⟩ rfl
    (by simp [sampleInfo, Vec3.normalized, Vec3.length, Vec3.lengthSq, Vec3.dot, Vec3.sub,
      Vec3.mulScalar, Vec3.scalarMul])
    (by simp [sampleInfo, Vec3.normalized, Vec3.length, Vec3.lengthSq, Vec3.dot, Vec3.sub,
      Vec3.mulScalar, Vec3.scalarMul])

/-- C5: with a non-constant bump texture of derivative `(du, dv)` at `info.uv` and a primitive
supplying `(T, B)`, the vectors are perturbed to `T' = T + Ns*du*bumpStrength` and
`B' = B + Ns*dv*bumpStrength`, and the frame's normal is `T' x B'`, negated exactly when
`(T' x B').Ns < 0`, normalised.  Whenever `T' x B'` is non-zero that normal has unit length and
satisfies `N.Ns >= 0`. -/
theorem setupTangentFrame_bump_normal {D : Type} (sqrt : K → K) (hsqrt : ExactSqrt sqrt)
    (complete : Vec3 K → Vec3 K × Vec3 K) (b : Bsdf K) (bump : TextureA K)
    (primitive : Primitive K D) (data : D) (info : IntersectionInfo K) (T B T' B' : Vec3 K)
    (hb : b._bump = some bump) (hc : bump.isConstant = false)
    (hts : primitive.tangentSpace data info = some (T, B))
    (hT : T' = Vec3.add T
      (Vec3.mulScalar (Vec3.mulScalar info.Ns (bump.derivatives info.uv).x) b._bumpStrength))
    (hB : B' = Vec3.add B
      (Vec3.mulScalar (Vec3.mulScalar info.Ns (bump.derivatives info.uv).y) b._bumpStrength)) :
    ∃ f, Bsdf.setupTangentFrame sqrt complete b primitive data info = some f ∧
      f.normal = Vec3.normalized sqrt
        (if Vec3.dot (Vec3.cross T' B') info.Ns < 0 then Vec3.neg (Vec3.cross T' B')
          else Vec3.cross T' B') ∧
      (Vec3.cross T' B' ≠ ⟨0, 0, 0⟩ →
        Vec3.length sqrt f.normal = 1 ∧ 0 ≤ Vec3.dot f.normal info.Ns) := by
  refine ⟨_, Bsdf.setupTangentFrame_eq_bumped sqrt complete hb hc hts, ?_, ?_⟩
  · simp only [Bsdf.orthogonalize, Bsdf.bumpedVectors, hT, hB]
  · intro hne
    simp only [Bsdf.orthogonalize, Bsdf.bumpedVectors, ← hT, ← hB]
    have hflip : (if Vec3.dot (Vec3.cross T' B') info.Ns < 0 then Vec3.neg (Vec3.cross T' B')
        else Vec3.cross T' B') ≠ ⟨0, 0, 0⟩ := by
      split
      · exact Vec3.neg_ne_zero hne
      · exact hne
    have hdot : 0 ≤ Vec3.dot (if Vec3.dot (Vec3.cross T' B') info.Ns < 0
        then Vec3.neg (Vec3.cross T' B') else Vec3.cross T' B') info.Ns := by
      split
      · rw [Vec3.dot_neg_left]; linarith
      · linarith
    refine ⟨Vec3.length_normalized hsqrt (Vec3.length_ne_zero hsqrt hflip), ?_⟩
    rw [Vec3.dot_normalized_left]
    exact mul_nonneg (div_nonneg zero_le_one (Vec3.length_nonneg hsqrt _)) hdot

/-- C5, witness: `Ns = e3`, `T = e2`, `B = e1` and the ramp of slope `3/40` at strength `10`:
`T' x B' = (0, 3/4, -1)` points away from `Ns`, is flipped, and the normal written has unit
length and a non-negative component along `Ns`. -/
theorem setupTangentFrame_bump_normal_witness :
    ∃ f, Bsdf.setupTangentFrame Real.sqrt sampleComplete
        ((Bsdf.ctor ⟨0, false⟩).setBump (some (rampTexture (3 / 40) 0)))
        (samplePrimitive ⟨0, 1, 0⟩ ⟨1, 0, 0⟩) () (sampleInfo ⟨0, 0, 1⟩ ⟨0, 0⟩) = some f ∧
      f.normal = Vec3.normalized Real.sqrt ⟨0, -3 / 4, 1⟩ ∧
      Vec3.length Real.sqrt f.normal = 1 ∧ 0 ≤ Vec3.dot f.normal ⟨0, 0, 1⟩ := by
  obtain ⟨f, hf, hn, h⟩ := setupTangentFrame_bump_normal Real.sqrt exactSqrt_real sampleComplete
    ((Bsdf.ctor ⟨0, false⟩).setBump (some (rampTexture (3 / 40) 0))) (rampTexture (3 / 40) 0)
    (samplePrimitive ⟨0, 1, 0⟩ ⟨1, 0, 0⟩) () (sampleInfo ⟨0, 0, 1⟩ ⟨0, 0⟩)
    ⟨0, 1, 0⟩ ⟨1, 0, 0⟩ _ _ rfl rfl rfl rfl rfl
  refine ⟨f, hf, ?_, h ?_⟩
  · rw [hn]
    simp [rampTexture, sampleInfo, Bsdf.setBump, Bsdf.ctor, Vec3.dot, Vec3.cross, Vec3.add,
      Vec3.neg, Vec3.mulScalar]
    norm_num
  · simp [rampTexture, sampleInfo, Bsdf.setBump, Bsdf.ctor, Vec3.cross, Vec3.add,
      Vec3.mulScalar]

end TangentFrames

/-! ## Invariants along mutator sequences -/

namespace Mutator

variable {K : Type}

/-- A property of the state that every admissible call preserves holds after every sequence
of admissible calls. -/
theorem foldl_preserves (P : Bsdf K → Prop) (A : Mutator K → Prop)
    (step : ∀ (b : Bsdf K) (m : Mutator K), P b → A m → P (apply b m))
    (ms : List (Mutator K)) (b : Bsdf K) (hb : P b) (hms : ∀ m ∈ ms, A m) :
    P (ms.foldl apply b) := by
  induction ms generalizing b with
  | nil => exact hb
  | cons m ms ih =>
    exact ih (apply b m) (step b m hb (hms m (List.mem_cons_self m ms)))
      (fun m2 h2 => hms m2 (List.mem_cons_of_mem m h2))

end Mutator

/-! ## Emission, textures and scatter setup -/

section Material

variable {K : Type} [LinearOrderedField K]

/-- C6: `power()` is the maximum of the three emission channels (it bounds each channel and is
one of them), and `isEmissive()` is true exactly when `power() > 0`. -/
theorem power_eq_max_channel (b : Bsdf K) :
    b.power = Max.max b.emission.x (Max.max b.emission.y b.emission.z) ∧
      (b.emission.x ≤ b.power ∧ b.emission.y ≤ b.power ∧ b.emission.z ≤ b.power) ∧
      (b.power = b.emission.x ∨ b.power = b.emission.y ∨ b.power = b.emission.z) ∧
      (b.isEmissive = true ↔ b.power > 0) := by
  have hp : b.power = Max.max (Max.max b._emission.x b._emission.y) b._emission.z := rfl
  refine ⟨?_, ⟨?_, ?_, ?_⟩, ?_, ?_⟩
  · rw [hp, max_assoc]; rfl
  · rw [hp]; exact le_trans (le_max_left _ _) (le_max_left _ _)
  · rw [hp]; exact le_trans (le_max_right _ _) (le_max_left _ _)
  · rw [hp]; exact le_max_right _ _
  · rw [hp]
    show _ = b._emission.x ∨ _ = b._emission.y ∨ _ = b._emission.z
    rcases max_choice (Max.max b._emission.x b._emission.y) b._emission.z with h | h
    · rw [h]
      rcases max_choice b._emission.x b._emission.y with h2 | h2
      · exact Or.inl h2
      · exact Or.inr (Or.inl h2)
    · exact Or.inr (Or.inr h)
  · simp [Bsdf.isEmissive, Bsdf.power]

/-- C7, as amended: in every state reached from the default constructor by a sequence of
public mutator calls in which each `setEmission(e)` has `e.max() >= 0`, `emission().max() >= 0`
holds, so `power()` is not negative. -/
theorem power_nonneg_of_emission_nonneg (lobes : BsdfLobes) (ms : List (Mutator K))
    (hms : ∀ m ∈ ms, m.EmissionNonneg) :
    0 ≤ Vec3.max (Mutator.run lobes ms).emission ∧ 0 ≤ (Mutator.run lobes ms).power := by
  have h : 0 ≤ (Mutator.run lobes ms).power := by
    refine Mutator.foldl_preserves (fun b => 0 ≤ b.power) Mutator.EmissionNonneg ?_ ms
      (Bsdf.ctor lobes) ?_ hms
    · intro b m hb hm
      cases m with
      | setEmission e => exact hm
      | setColor c => exact hb
      | setAlpha a => exact hb
      | setBump t => exact hb
      | assignColor c => exact hb
      | assignAlpha a => exact hb
      | assignBump t => exact hb
    · simp [Bsdf.power, Bsdf.ctor, Vec3.max, Vec3.splat]
  exact ⟨h, h⟩

/-- C7, witness: an emission with a negative channel but a positive maximum, followed by
texture changes. -/
theorem power_nonneg_of_emission_nonneg_witness :
    0 ≤ Vec3.max (Mutator.run ⟨0, false⟩
        [Mutator.setEmission ⟨1 / 2, 0, -1⟩, Mutator.setColor (some greyRamp),
          Mutator.setBump none] : Bsdf ℚ).emission ∧
      0 ≤ (Mutator.run ⟨0, false⟩
        [Mutator.setEmission ⟨1 / 2, 0, -1⟩, Mutator.setColor (some greyRamp),
          Mutator.setBump none] : Bsdf ℚ).power :=
  power_nonneg_of_emission_nonneg ⟨0, false⟩
    [Mutator.setEmission ⟨1 / 2, 0, -1⟩, Mutator.setColor (some greyRamp), Mutator.setBump none]
    (by
      intro m hm
      simp only [List.mem_cons, List.mem_singleton, List.not_mem_nil, or_false] at hm
      rcases hm with rfl | rfl | rfl
      · simp [Mutator.EmissionNonneg, Vec3.max]
      · trivial
      · trivial)

/-- C7, counterexample: after `setEmission((-1, -1, -1))` on a default-constructed `Bsdf`,
`emission().max()` and `power()` are `-1`. -/
theorem power_nonneg_counterexample :
    Vec3.max (Mutator.run ⟨0, false⟩ [Mutator.setEmission ⟨-1, -1, -1⟩] : Bsdf ℚ).emission = -1 ∧
      (Mutator.run ⟨0, false⟩ [Mutator.setEmission ⟨-1, -1, -1⟩] : Bsdf ℚ).power = -1 ∧
      ¬ (0 ≤ Vec3.max
        (Mutator.run ⟨0, false⟩ [Mutator.setEmission ⟨-1, -1, -1⟩] : Bsdf ℚ).emission) := by
  simp [Mutator.run, Mutator.apply, Bsdf.setEmission, Bsdf.emission, Bsdf.power, Vec3.max]

/-- C8, as amended: in every state reached from the default constructor by a sequence of
public mutator calls none of which passes or assigns a null handle, the base, alpha and bump
texture handles are all non-null. -/
theorem handles_nonNull_of_args_nonNull (lobes : BsdfLobes) (ms : List (Mutator K))
    (hms : ∀ m ∈ ms, m.HandleNonNull) :
    (Mutator.run lobes ms).HandlesNonNull := by
  refine Mutator.foldl_preserves Bsdf.HandlesNonNull Mutator.HandleNonNull ?_ ms
    (Bsdf.ctor lobes) ⟨rfl, rfl, rfl⟩ hms
  intro b m hb hm
  obtain ⟨h1, h2, h3⟩ := hb
  cases m with
  | setEmission e => exact ⟨h1, h2, h3⟩
  | setColor c => exact ⟨hm, h2, h3⟩
  | setAlpha a => exact ⟨h1, hm, h3⟩
  | setBump t => exact ⟨h1, h2, hm⟩
  | assignColor c => exact ⟨hm, h2, h3⟩
  | assignAlpha a => exact ⟨h1, hm, h3⟩
  | assignBump t => exact ⟨h1, h2, hm⟩

/-- C8, witness: every kind of mutator once, each with a non-null handle. -/
theorem handles_nonNull_of_args_nonNull_witness :
    (Mutator.run ⟨0, false⟩
      [Mutator.setColor (some greyRamp), Mutator.setEmission ⟨-1, -1, -1⟩,
        Mutator.setAlpha (some (ConstantTexture (1 / 2))),
        Mutator.setBump (some (rampTexture 1 0)), Mutator.assignColor (some greyRamp),
        Mutator.assignAlpha (some (rampTexture 0 1)),
        Mutator.assignBump (some (ConstantTexture 0))] : Bsdf ℚ).HandlesNonNull :=
  handles_nonNull_of_args_nonNull ⟨0, false⟩
    [Mutator.setColor (some greyRamp), Mutator.setEmission ⟨-1, -1, -1⟩,
      Mutator.setAlpha (some (ConstantTexture (1 / 2))),
      Mutator.setBump (some (rampTexture 1 0)), Mutator.assignColor (some greyRamp),
      Mutator.assignAlpha (some (rampTexture 0 1)),
      Mutator.assignBump (some (ConstantTexture 0))]
    (by
      intro m hm
      simp only [List.mem_cons, List.mem_singleton, List.not_mem_nil, or_false] at hm
      rcases hm with rfl | rfl | rfl | rfl | rfl | rfl | rfl <;> first | rfl | trivial)

/-- C8, counterexample: `setColor(nullptr)` on a default-constructed `Bsdf` leaves the base
handle null (and `setupScatter` then has no texture to read), and so does the assignment
`bump() = nullptr` for the bump handle. -/
theorem handles_nonNull_counterexample :
    (Mutator.run ⟨0, false⟩ [Mutator.setColor none] : Bsdf ℚ).color = none ∧
      ¬ (Mutator.run ⟨0, false⟩ [Mutator.setColor none] : Bsdf ℚ).HandlesNonNull ∧
      ¬ (Mutator.run ⟨0, false⟩ [Mutator.assignBump none] : Bsdf ℚ).HandlesNonNull := by
  simp [Mutator.run, Mutator.apply, Bsdf.setColor, Bsdf.assignBump, Bsdf.color,
    Bsdf.HandlesNonNull, Bsdf.ctor]

/-- C10: a default-constructed `Bsdf` has emission `(0,0,0)`, a constant white base colour
texture, a constant alpha texture `1`, a constant bump texture `0` and `bumpStrength` `10`;
so for every `info` its `alpha(info)` is `1`, `setupScatter` writes the throughput `(1,1,1)`,
`power()` is `0` and `isEmissive()` is false. -/
theorem ctor_defaults (lobes : BsdfLobes) :
    (Bsdf.ctor lobes : Bsdf K).emission = ⟨0, 0, 0⟩ ∧
      (∃ t, (Bsdf.ctor lobes : Bsdf K).color = some t ∧ t.isConstant = true ∧
        ∀ uv, t.lookup uv = ⟨1, 1, 1⟩) ∧
      (∃ t, (Bsdf.ctor lobes : Bsdf K).alphaHandle = some t ∧ t.isConstant = true ∧
        ∀ uv, t.lookup uv = 1) ∧
      (∃ t, (Bsdf.ctor lobes : Bsdf K).bump = some t ∧ t.isConstant = true ∧
        ∀ uv, t.lookup uv = 0) ∧
      (Bsdf.ctor lobes : Bsdf K)._bumpStrength = 10 ∧
      (∀ info, (Bsdf.ctor lobes : Bsdf K).alpha info = some 1) ∧
      (∀ e, (Bsdf.ctor lobes : Bsdf K).setupScatter e
        = some { e with throughput := ⟨1, 1, 1⟩ }) ∧
      (Bsdf.ctor lobes : Bsdf K).power = 0 ∧
      (Bsdf.ctor lobes : Bsdf K).isEmissive = false := by
  refine ⟨rfl, ⟨_, rfl, rfl, fun _ => rfl⟩, ⟨_, rfl, rfl, fun _ => rfl⟩,
    ⟨_, rfl, rfl, fun _ => rfl⟩, rfl, fun _ => rfl, fun _ => rfl, ?_, ?_⟩
  · simp [Bsdf.power, Bsdf.ctor, Vec3.max, Vec3.splat]
  · simp [Bsdf.isEmissive, Bsdf.ctor, Vec3.max, Vec3.splat]

end Material

section Scatter

variable {K : Type}

/-- C9: `setupScatter(e)` returns with `e.throughput` equal to the base-colour texture looked
up at `e.info.uv` (the value of `base(e.info)`) and every other field of `e` as it was; it is
idempotent and its result does not depend on the previous throughput.  The `Bsdf` is only
read. -/
theorem setupScatter_frame (b : Bsdf K) (tex : TextureRgb K) (e : SurfaceScatterEvent K)
    (hb : b._base = some tex) :
    ∃ e2, b.setupScatter e = some e2 ∧
      e2.throughput = tex.lookup e.info.uv ∧ b.base e.info = some e2.throughput ∧
      e2.info = e.info ∧ e2.wi = e.wi ∧ e2.wo = e.wo ∧ e2.sampledLobe = e.sampledLobe ∧
      b.setupScatter e2 = some e2 ∧
      ∀ t : Vec3 K, b.setupScatter { e with throughput := t } = some e2 := by
  refine ⟨{ e with throughput := tex.lookup e.info.uv }, ?_, rfl, ?_, rfl, rfl, rfl, rfl, ?_, ?_⟩
  · simp [Bsdf.setupScatter, hb]
  · simp [Bsdf.base, hb]
  · simp [Bsdf.setupScatter, hb]
  · intro t
    simp [Bsdf.setupScatter, hb]

/-- C9, witness: the grey ramp as base colour, an event at `uv = (1/3, 2/3)` with throughput
`(5, 6, 7)`: the throughput becomes `(1/3, 1/3, 1/3)` and nothing else changes. -/
theorem setupScatter_frame_witness :
    Bsdf.setupScatter ((Bsdf.ctor ⟨0, false⟩).setColor (some greyRamp) : Bsdf ℚ)
        (sampleEvent ⟨1 / 3, 2 / 3⟩ ⟨5, 6, 7⟩)
      = some (sampleEvent ⟨1 / 3, 2 / 3⟩ ⟨1 / 3, 1 / 3, 1 / 3⟩) := by
  obtain ⟨e2, h, ht, _, hi, hwi, hwo, hl, _, _⟩ :=
    setupScatter_frame ((Bsdf.ctor ⟨0, false⟩).setColor (some greyRamp) : Bsdf ℚ) greyRamp
      (sampleEvent ⟨1 / 3, 2 / 3⟩ ⟨5, 6, 7⟩) rfl
  rw [h]
  cases e2
  simp only [sampleEvent, sampleInfo, greyRamp] at ht hi hwi hwo hl
  simp [sampleEvent, sampleInfo, ht, hi, hwi, hwo, hl]

end Scatter

/-! ## Handedness and fixed points of the Gram-Schmidt pass -/

namespace Bsdf

variable {K : Type} [LinearOrderedField K]

theorem tangentResidual_of_dot_eq_zero {N T : Vec3 K} (h : Vec3.dot N T = 0) :
    tangentResidual N T = T := by
  unfold tangentResidual; rw [h, Vec3.sub_scalarMul_zero]

theorem bitangentResidual_of_dot_eq_zero {N B : Vec3 K} (T : Vec3 K) (h : Vec3.dot N B = 0) :
    bitangentResidual N T B = Vec3.sub B (Vec3.scalarMul (Vec3.dot T B) T) := by
  unfold bitangentResidual; rw [h, Vec3.sub_scalarMul_zero]

/-- The Gram-Schmidt pass of lines 93-96 returns an orthonormal triple unchanged. -/
theorem orthogonalize_of_orthonormal (sqrt : K → K) (N T B : Vec3 K)
    (h : TangentFrame.Orthonormal sqrt ⟨N, T, B⟩) : orthogonalize sqrt N T B = ⟨N, T, B⟩ := by
  obtain ⟨_, hT, hB, hNT, hNB, hTB⟩ := h
  have h1 : Vec3.normalized sqrt (tangentResidual N T) = T := by
    rw [tangentResidual_of_dot_eq_zero hNT, Vec3.normalized_of_length_eq_one sqrt hT]
  have h2 : Vec3.normalized sqrt (bitangentResidual N T B) = B := by
    rw [bitangentResidual_of_dot_eq_zero T hNB]
    have hTB0 : Vec3.dot T B = 0 := hTB
    rw [hTB0, Vec3.sub_scalarMul_zero, Vec3.normalized_of_length_eq_one sqrt hB]
  unfold orthogonalize
  simp only [h1, h2]

/-- The pass on a normal orthogonal to both `T` and `B`: the projections onto `N` drop out. -/
theorem orthogonalize_of_dot_eq_zero (sqrt : K → K) {N T B : Vec3 K}
    (hT : Vec3.dot N T = 0) (hB : Vec3.dot N B = 0) :
    orthogonalize sqrt N T B
      = ⟨N, Vec3.normalized sqrt T,
          Vec3.normalized sqrt
            (Vec3.sub B
              (Vec3.scalarMul (Vec3.dot (Vec3.normalized sqrt T) B)
                (Vec3.normalized sqrt T)))⟩ := by
  unfold orthogonalize
  simp only [tangentResidual_of_dot_eq_zero hT, bitangentResidual_of_dot_eq_zero _ hB]

/-- The flipped cross product of line 90 is orthogonal to both of its factors. -/
theorem dot_flipped_cross (Ns T B : Vec3 K) :
    Vec3.dot (if Vec3.dot (Vec3.cross T B) Ns < 0 then Vec3.neg (Vec3.cross T B)
        else Vec3.cross T B) T = 0 ∧
      Vec3.dot (if Vec3.dot (Vec3.cross T B) Ns < 0 then Vec3.neg (Vec3.cross T B)
        else Vec3.cross T B) B = 0 := by
  split
  · rw [Vec3.dot_neg_left, Vec3.dot_neg_left, Vec3.dot_cross_left, Vec3.dot_cross_right]
    simp
  · exact ⟨Vec3.dot_cross_left T B, Vec3.dot_cross_right T B⟩

end Bsdf

theorem sqrt_25 : Real.sqrt 25 = 5 := by
  rw [show (25 : ℝ) = 5 ^ 2 by norm_num]
  exact Real.sqrt_sq (by norm_num)

section Handedness

variable {K : Type} [LinearOrderedField K]

/-- C11: on the bump path, with `T' = T + Ns*du*bumpStrength` and
`B' = B + Ns*dv*bumpStrength` linearly independent, `T'` and `B'` are orthogonal to the
normal `N` written, so the projections onto `N` change nothing and the tangent written is
`normalize(T')`; the handedness follows the flip: `cross(T_out, B_out)` is `N` when
`(T' x B').Ns >= 0` and `-N` when `(T' x B').Ns < 0`. -/
theorem setupTangentFrame_bump_handedness {D : Type} (sqrt : K → K) (hsqrt : ExactSqrt sqrt)
    (complete : Vec3 K → Vec3 K × Vec3 K) (b : Bsdf K) (bump : TextureA K)
    (primitive : Primitive K D) (data : D) (info : IntersectionInfo K) (T B T' B' : Vec3 K)
    (hb : b._bump = some bump) (hc : bump.isConstant = false)
    (hts : primitive.tangentSpace data info = some (T, B))
    (hT : T' = Vec3.add T
      (Vec3.mulScalar (Vec3.mulScalar info.Ns (bump.derivatives info.uv).x) b._bumpStrength))
    (hB : B' = Vec3.add B
      (Vec3.mulScalar (Vec3.mulScalar info.Ns (bump.derivatives info.uv).y) b._bumpStrength))
    (hind : Vec3.Independent T' B') :
    ∃ f, Bsdf.setupTangentFrame sqrt complete b primitive data info = some f ∧
      Vec3.dot f.normal T' = 0 ∧ Vec3.dot f.normal B' = 0 ∧
      Bsdf.tangentResidual f.normal T' = T' ∧
      Vec3.sub B' (Vec3.scalarMul (Vec3.dot f.normal B') f.normal) = B' ∧
      f.tangent = Vec3.normalized sqrt T' ∧
      (0 ≤ Vec3.dot (Vec3.cross T' B') info.Ns →
        Vec3.cross f.tangent f.bitangent = f.normal) ∧
      (Vec3.dot (Vec3.cross T' B') info.Ns < 0 →
        Vec3.cross f.tangent f.bitangent = Vec3.neg f.normal) := by
  have hne : Vec3.cross T' B' ≠ ⟨0, 0, 0⟩ := Vec3.cross_ne_zero_of_independent hind
  have hNT : Vec3.dot (Vec3.normalized sqrt
      (if Vec3.dot (Vec3.cross T' B') info.Ns < 0 then Vec3.neg (Vec3.cross T' B')
        else Vec3.cross T' B')) T' = 0 := by
    rw [Vec3.dot_normalized_left, (Bsdf.dot_flipped_cross info.Ns T' B').1, mul_zero]
  have hNB : Vec3.dot (Vec3.normalized sqrt
      (if Vec3.dot (Vec3.cross T' B') info.Ns < 0 then Vec3.neg (Vec3.cross T' B')
        else Vec3.cross T' B')) B' = 0 := by
    rw [Vec3.dot_normalized_left, (Bsdf.dot_flipped_cross info.Ns T' B').2, mul_zero]
  refine ⟨_, Bsdf.setupTangentFrame_eq_bumped sqrt complete hb hc hts, ?_⟩
  simp only [Bsdf.bumpedVectors, ← hT, ← hB]
  rw [Bsdf.orthogonalize_of_dot_eq_zero sqrt hNT hNB]
  refine ⟨hNT, hNB, Bsdf.tangentResidual_of_dot_eq_zero hNT, ?_, rfl, ?_, ?_⟩
  · rw [hNB, Vec3.sub_scalarMul_zero]
  · intro hpos
    rw [Vec3.cross_normalized_residual hsqrt T' B' hne, if_neg (not_lt.mpr hpos)]
  · intro hneg
    rw [Vec3.cross_normalized_residual hsqrt T' B' hne, if_pos hneg, Vec3.normalized_neg,
      Vec3.neg_neg_eq]

/-- C11, witness: over `ℝ` with `Ns = e3` and the ramp of slope `3/40` at strength `10`.
For `T = e2`, `B = e1` the cross product `(0, 3/4, -1)` is flipped and the frame written is
left-handed; for `T = e1`, `B = e2` nothing is flipped and it is right-handed. -/
theorem setupTangentFrame_bump_handedness_witness :
    (∃ f, Bsdf.setupTangentFrame Real.sqrt sampleComplete
        ((Bsdf.ctor ⟨0, false⟩).setBump (some (rampTexture (3 / 40) 0)))
        (samplePrimitive ⟨0, 1, 0⟩ ⟨1, 0, 0⟩) () (sampleInfo ⟨0, 0, 1⟩ ⟨0, 0⟩) = some f ∧
      f.tangent = Vec3.normalized Real.sqrt ⟨0, 1, 3 / 4⟩ ∧
      Vec3.cross f.tangent f.bitangent = Vec3.neg f.normal) ∧
    (∃ f, Bsdf.setupTangentFrame Real.sqrt sampleComplete
        ((Bsdf.ctor ⟨0, false⟩).setBump (some (rampTexture (3 / 40) 0)))
        (samplePrimitive ⟨1, 0, 0⟩ ⟨0, 1, 0⟩) () (sampleInfo ⟨0, 0, 1⟩ ⟨0, 0⟩) = some f ∧
      f.tangent = Vec3.normalized Real.sqrt ⟨1, 0, 3 / 4⟩ ∧
      Vec3.cross f.tangent f.bitangent = f.normal) := by
  constructor
  · obtain ⟨f, hf, _, _, _, _, ht, _, hflip⟩ :=
      setupTangentFrame_bump_handedness Real.sqrt exactSqrt_real sampleComplete
        ((Bsdf.ctor ⟨0, false⟩).setBump (some (rampTexture (3 / 40) 0)))
        (rampTexture (3 / 40) 0) (samplePrimitive ⟨0, 1, 0⟩ ⟨1, 0, 0⟩) ()
        (sampleInfo ⟨0, 0, 1⟩ ⟨0, 0⟩) ⟨0, 1, 0⟩ ⟨1, 0, 0⟩ ⟨0, 1, 3 / 4⟩ ⟨1, 0, 0⟩ rfl rfl rfl
        (by simp [rampTexture, sampleInfo, Bsdf.setBump, Bsdf.ctor, Vec3.add, Vec3.mulScalar]
            norm_num)
        (by simp [rampTexture, sampleInfo, Bsdf.setBump, Bsdf.ctor, Vec3.add, Vec3.mulScalar])
        (by
          intro s t h
          simp [Vec3.add, Vec3.mulScalar] at h
          exact ⟨h.2, h.1⟩)
    refine ⟨f, hf, ht, hflip ?_⟩
    simp [sampleInfo, Vec3.dot, Vec3.cross]
  · obtain ⟨f, hf, _, _, _, _, ht, hkeep, _⟩ :=
      setupTangentFrame_bump_handedness Real.sqrt exactSqrt_real sampleComplete
        ((Bsdf.ctor ⟨0, false⟩).setBump (some (rampTexture (3 / 40) 0)))
        (rampTexture (3 / 40) 0) (samplePrimitive ⟨1, 0, 0⟩ ⟨0, 1, 0⟩) ()
        (sampleInfo ⟨0, 0, 1⟩ ⟨0, 0⟩) ⟨1, 0, 0⟩ ⟨0, 1, 0⟩ ⟨1, 0, 3 / 4⟩ ⟨0, 1, 0⟩ rfl rfl rfl
        (by simp [rampTexture, sampleInfo, Bsdf.setBump, Bsdf.ctor, Vec3.add, Vec3.mulScalar]
            norm_num)
        (by simp [rampTexture, sampleInfo, Bsdf.setBump, Bsdf.ctor, Vec3.add, Vec3.mulScalar])
        (by
          intro s t h
          simp [Vec3.add, Vec3.mulScalar] at h
          exact ⟨h.1, h.2.1⟩)
    refine ⟨f, hf, ht, hkeep ?_⟩
    simp [sampleInfo, Vec3.dot, Vec3.cross]

/-- C12, as amended: on the path without bump perturbation (anisotropic lobes, constant bump,
the primitive supplies `(T, B)`), if `Ns`, `T`, `B` are orthonormal the Gram-Schmidt pass is
the identity and the frame written is `TangentFrame(Ns, T, B)`; and whenever `Ns` has unit
length and no vector passed to `normalize` has zero length, re-running the pass on the frame
written returns that frame unchanged. -/
theorem setupTangentFrame_gramSchmidt_fixed {D : Type} (sqrt : K → K) (hsqrt : ExactSqrt sqrt)
    (complete : Vec3 K → Vec3 K × Vec3 K) (b : Bsdf K) (bump : TextureA K)
    (primitive : Primitive K D) (data : D) (info : IntersectionInfo K) (T B : Vec3 K)
    (hb : b._bump = some bump) (hc : bump.isConstant = true)
    (ha : b._lobes.isAnisotropic = true)
    (hts : primitive.tangentSpace data info = some (T, B)) :
    (TangentFrame.Orthonormal sqrt ⟨info.Ns, T, B⟩ →
      Bsdf.setupTangentFrame sqrt complete b primitive data info = some ⟨info.Ns, T, B⟩) ∧
    (Vec3.length sqrt info.Ns = 1 →
      (∀ v ∈ Bsdf.normalizeArgs sqrt b bump info T B, Vec3.length sqrt v ≠ 0) →
      ∃ f, Bsdf.setupTangentFrame sqrt complete b primitive data info = some f ∧
        Bsdf.orthogonalize sqrt f.normal f.tangent f.bitangent = f) := by
  have hset := Bsdf.setupTangentFrame_eq_unbumped sqrt complete hb hc ha hts
  refine ⟨fun h => ?_, fun hNs hnz => ⟨_, hset, ?_⟩⟩
  · rw [hset, Bsdf.orthogonalize_of_orthonormal sqrt _ _ _ h]
  · simp only [Bsdf.normalizeArgs, hc, Bool.not_true, Bool.false_eq_true, if_false,
      List.mem_cons, List.mem_singleton, List.not_mem_nil, or_false, forall_eq_or_imp,
      forall_eq] at hnz
    obtain ⟨h2, h3⟩ := hnz
    exact Bsdf.orthogonalize_of_orthonormal sqrt _ _ _
      (Bsdf.orthogonalize_orthonormal hsqrt info.Ns T B
        (Vec3.lengthSq_of_length_eq_one hsqrt hNs) h2 h3)

/-- C12, witness: over `ℝ` with anisotropic lobes, a constant bump and `Ns = e3`.  The
orthonormal pair `T = e1`, `B = e2` is written back as `{e3, e1, e2}`; for `T = (1, 0, 1)`,
`B = e2` the frame written is a fixed point of the pass. -/
theorem setupTangentFrame_gramSchmidt_fixed_witness :
    Bsdf.setupTangentFrame Real.sqrt sampleComplete (Bsdf.ctor ⟨0, true⟩)
        (samplePrimitive ⟨1, 0, 0⟩ ⟨0, 1, 0⟩) () (sampleInfo ⟨0, 0, 1⟩ ⟨0, 0⟩)
      = some ⟨⟨0, 0, 1⟩, ⟨1, 0, 0⟩, ⟨0, 1, 0⟩⟩ ∧
    ∃ f, Bsdf.setupTangentFrame Real.sqrt sampleComplete (Bsdf.ctor ⟨0, true⟩)
        (samplePrimitive ⟨1, 0, 1⟩ ⟨0, 1, 0⟩) () (sampleInfo ⟨0, 0, 1⟩ ⟨0, 0⟩) = some f ∧
      Bsdf.orthogonalize Real.sqrt f.normal f.tangent f.bitangent = f :=
  ⟨(setupTangentFrame_gramSchmidt_fixed Real.sqrt exactSqrt_real sampleComplete
      (Bsdf.ctor ⟨0, true⟩) (ConstantTexture 0) (samplePrimitive ⟨1, 0, 0⟩ ⟨0, 1, 0⟩) ()
      (sampleInfo ⟨0, 0, 1⟩ ⟨0, 0⟩) ⟨1, 0, 0⟩ ⟨0, 1, 0⟩ rfl rfl rfl rfl).1
      (by simp [TangentFrame.Orthonormal, sampleInfo, Vec3.length, Vec3.lengthSq, Vec3.dot]),
   (setupTangentFrame_gramSchmidt_fixed Real.sqrt exactSqrt_real sampleComplete
      (Bsdf.ctor ⟨0, true⟩) (ConstantTexture 0) (samplePrimitive ⟨1, 0, 1⟩ ⟨0, 1, 0⟩) ()
      (sampleInfo ⟨0, 0, 1⟩ ⟨0, 0⟩) ⟨1, 0, 1⟩ ⟨0, 1, 0⟩ rfl rfl rfl rfl).2
      (by simp [sampleInfo, Vec3.length, Vec3.lengthSq])
      (by
        simp [Bsdf.normalizeArgs, ConstantTexture, Bsdf.orthogonalize, Bsdf.tangentResidual,
          Bsdf.bitangentResidual, sampleInfo, Vec3.normalized, Vec3.length, Vec3.lengthSq,
          Vec3.dot, Vec3.sub, Vec3.mulScalar, Vec3.scalarMul])⟩

/-- C12, counterexample: anisotropic lobes, constant bump, `Ns = (0, 0, 2)`, and the primitive
supplies `T = (4, 0, 1)`, `B = e2`.  No vector passed to `normalize` has zero length and the
frame written is `{(0,0,2), (4/5, 0, -3/5), e2}`; re-running the pass on it changes the
tangent (its third component becomes positive). -/
theorem setupTangentFrame_gramSchmidt_fixed_counterexample :
    (∀ v ∈ Bsdf.normalizeArgs Real.sqrt (Bsdf.ctor ⟨0, true⟩) (ConstantTexture 0)
        (sampleInfo ⟨0, 0, 2⟩ ⟨0, 0⟩) ⟨4, 0, 1⟩ ⟨0, 1, 0⟩, Vec3.length Real.sqrt v ≠ 0) ∧
    Bsdf.setupTangentFrame Real.sqrt sampleComplete (Bsdf.ctor ⟨0, true⟩)
        (samplePrimitive ⟨4, 0, 1⟩ ⟨0, 1, 0⟩) () (sampleInfo ⟨0, 0, 2⟩ ⟨0, 0⟩)
      = some ⟨⟨0, 0, 2⟩, ⟨4 / 5, 0, -3 / 5⟩, ⟨0, 1, 0⟩⟩ ∧
    Bsdf.orthogonalize Real.sqrt ⟨0, 0, 2⟩ ⟨4 / 5, 0, -3 / 5⟩ ⟨0, 1, 0⟩
      ≠ (⟨⟨0, 0, 2⟩, ⟨4 / 5, 0, -3 / 5⟩, ⟨0, 1, 0⟩⟩ : TangentFrame ℝ) := by
  refine ⟨?_, ?_, ?_⟩
  · simp [Bsdf.normalizeArgs, ConstantTexture, Bsdf.orthogonalize, Bsdf.tangentResidual,
      Bsdf.bitangentResidual, sampleInfo, Vec3.normalized, Vec3.length, Vec3.lengthSq, Vec3.dot,
      Vec3.sub, Vec3.mulScalar, Vec3.scalarMul]
    norm_num [sqrt_25]
  · simp [Bsdf.setupTangentFrame, Bsdf.ctor, ConstantTexture, samplePrimitive,
      Bsdf.orthogonalize, Bsdf.tangentResidual, Bsdf.bitangentResidual, sampleInfo,
      Vec3.normalized, Vec3.length, Vec3.lengthSq, Vec3.dot, Vec3.sub, Vec3.mulScalar,
      Vec3.scalarMul]
    norm_num [sqrt_25]
  · intro h
    have hz := congrArg (fun f => f.tangent.z) h
    simp only [Bsdf.orthogonalize, Bsdf.tangentResidual, Vec3.normalized, Vec3.length,
      Vec3.lengthSq, Vec3.dot, Vec3.sub, Vec3.mulScalar, Vec3.scalarMul] at hz
    generalize hs : Real.sqrt _ = r at hz
    have hr : 0 ≤ r⁻¹ := inv_nonneg.mpr (hs ▸ Real.sqrt_nonneg _)
    norm_num at hz
    linarith

end Handedness

end Tungsten
